import Mathlib

/-!
# Verification of the book-recommendation pipeline (be-takehome-2024)

Shallow embedding, in Lean 4, of the Go services in this repository:
`internal/services/author_service.go`, `internal/services/book_service.go`,
the handler in `internal/handlers` (src/unnamed/part_000), and the
standalone variants in `main.go` and `src/unnamed/part_003` .. `part_006`.

The repository ships several variants of each service function; the
embedding models each cited variant separately and names which file a
definition comes from.  Network calls are oracle parameters: each remote
lookup becomes an explicit function argument mapping the request key to
the parsed response (or a failure marker), so one Lean function call
corresponds to one execution of the Go function against fixed upstream
responses.  Go maps are modelled as association lists whose order is the
map's (randomized) iteration order; making that order an explicit input
lets theorems quantify over every order the runtime can produce.
Concurrent fan-out loops protect their accumulator with a mutex and only
append; the embedding serializes them in input order, which is one of the
completion orders the scheduler can produce (order-sensitive claims are
settled against explicit orders).
-/

/-- Leading and trailing whitespace removal on the character list, the
effect of `strings.TrimSpace` for the ASCII whitespace exercised here. -/
def trimChars (l : List Char) : List Char :=
  ((l.dropWhile Char.isWhitespace).reverse.dropWhile Char.isWhitespace).reverse

/-- `strings.ToLower(strings.TrimSpace(subject))` from
`GetSubjectAuthorCounts` (book_service.go line 196, main.go line 350),
implemented over the character list so it evaluates by `decide`;
`Char.toLower` covers the ASCII letters exercised here. -/
def normalizeSubject (s : String) : String :=
  ⟨(trimChars s.data).map Char.toLower⟩

/-- `strings.TrimPrefix(s, pre)`: drop `pre` when it leads `s`, else return
`s` unchanged (used for `/authors/` and `/works/` keys). -/
def trimPre (s pre : String) : String :=
  if s.data.take pre.data.length = pre.data then ⟨s.data.drop pre.data.length⟩ else s

/-- A parsed JSON value, as produced by `json.Unmarshal` into `interface{}`.
Only the `description` field of a work-detail response is decoded this
way; `null` and absent both reach the Go `switch` as a non-string,
non-map value. -/
inductive Json where
  | str : String → Json
  | num : Int → Json
  | jbool : Bool → Json
  | null : Json
  | arr : List Json → Json
  | obj : List (String × Json) → Json

/-- The `v["value"].(string)` lookup inside the `map[string]interface{}`
branch of the description switch. -/
def getValueString (kvs : List (String × Json)) : Option String :=
  match kvs.find? (fun p => p.1 == "value") with
  | some (_, Json.str v) => some v
  | _ => none

/-- The description-normalization `switch` shared by every variant
(`fetchDescription` in book_service.go lines 119-127, part_004 lines
176-184, main.go lines 556-565): a plain string maps to itself, an object
with a string `value` field maps to that value, anything else (including
an absent field, modelled as `none`) maps to no description. -/
def normalizeDescription : Option Json → Option String
  | some (Json.str s) => some s
  | some (Json.obj kvs) => getValueString kvs
  | _ => none

/-- `models.Author` (internal/models/author.go). `work_count` is a
catalog count, hence a `Nat`. -/
structure Author where
  name : String
  key : String
  workCount : Nat
deriving Repr, DecidableEq

/-- One entry of `docs` in the author-search response
(`/search/authors.json`). -/
structure AuthorDoc where
  name : String
  key : String
  workCount : Nat
deriving Repr, DecidableEq

/-- Construction of the selected `models.Author` from a doc, including the
`strings.TrimPrefix(doc.Key, "/authors/")` step. -/
def mkSelected (d : AuthorDoc) : Author :=
  { name := d.name, key := trimPre d.key "/authors/", workCount := d.workCount }

/-- The disambiguation loop of `ResolveAuthorKeys` (author_service.go
lines 102-116, part_003 lines 75-89, part_006 lines 230-246):
`maxWorkCount` starts at `-1` and a doc replaces the current selection
exactly when its `workCount` is strictly greater. -/
def selectLoop : List AuthorDoc → Int → Author → Author
  | [], _, sel => sel
  | d :: ds, maxWC, sel =>
      if (d.workCount : Int) > maxWC then
        selectLoop ds (d.workCount : Int) (mkSelected d)
      else
        selectLoop ds maxWC sel

/-- `selectedAuthor` for a non-empty `docs` list; the zero value
`Author{}` is the Go starting point. -/
def selectAuthor (docs : List AuthorDoc) : Author :=
  selectLoop docs (-1) { name := "", key := "", workCount := 0 }

/-- Outcome of one author-name search against the catalog: a transport or
parse failure (network error, non-OK status, malformed body), or the
parsed `docs` list (which may be empty). -/
inductive LookupResult where
  | failure (msg : String)
  | docs (ds : List AuthorDoc)
deriving Repr, DecidableEq

/-- The successfully resolved author for one name, if any: a lookup that
fails or returns zero docs resolves nothing, otherwise the max-workCount
doc is selected. -/
def resolvedOf (lookup : String → LookupResult) (name : String) : Option Author :=
  match lookup name with
  | LookupResult.failure _ => none
  | LookupResult.docs [] => none
  | LookupResult.docs (d :: ds) => some (selectAuthor (d :: ds))

/-- `ResolveAuthorKeys` from `internal/services/author_service.go`: every
per-name failure (request error, non-OK status, read error, parse error,
or zero candidates) pushes a message onto `errCh`; after the join, a
non-empty `errCh` makes the whole batch return `nil` plus the joined
error (lines 127-138), discarding even the successfully resolved
authors. -/
def ResolveAuthorKeys (lookup : String → LookupResult) (authors : List String) :
    Except String (List Author) :=
  let step := fun (acc : List Author × List String) (name : String) =>
    match lookup name with
    | LookupResult.failure msg => (acc.1, acc.2 ++ ["Author " ++ name ++ ": " ++ msg])
    | LookupResult.docs [] => (acc.1, acc.2 ++ ["No authors found for " ++ name])
    | LookupResult.docs (d :: ds) => (acc.1 ++ [selectAuthor (d :: ds)], acc.2)
  let r := authors.foldl step ([], [])
  if r.2.isEmpty then Except.ok r.1
  else Except.error (String.intercalate "; " r.2)

/-- `resolveAuthorKeys` from `main.go` lines 208-294 (identical policy in
part_003 `ResolveAuthorKeys`): a failing or empty lookup is logged and
skipped, and the batch always returns the subset that resolved, with no
error. -/
def resolveAuthorKeys (lookup : String → LookupResult) (authors : List String) :
    Except String (List Author) :=
  Except.ok (authors.foldl
    (fun acc name =>
      match lookup name with
      | LookupResult.failure _ => acc
      | LookupResult.docs [] => acc
      | LookupResult.docs (d :: ds) => acc ++ [selectAuthor (d :: ds)])
    [])

/-- One entry of an author-works response (`/authors/{key}/works.json`),
as decoded by `GetSubjectAuthorCounts`. -/
structure WorkEntry where
  title : String
  subjects : List String
deriving Repr, DecidableEq

/-- The per-author subject set of `GetSubjectAuthorCounts`
(book_service.go lines 192-199, main.go lines 346-353): the normalized
subjects of the author's sampled works, deduplicated within the author
(`subjectsSet` is a Go map used as a set).  A failed works fetch (network,
read, or parse error) is logged and skipped, so the author contributes
nothing. -/
def authorSubjects (oracle : Author → Except String (List WorkEntry)) (a : Author) :
    List String :=
  match oracle a with
  | Except.error _ => []
  | Except.ok entries =>
      ((entries.map (fun w => w.subjects)).flatten.map normalizeSubject).dedup

/-- `subjectAuthorCount[subject]++` on an association-list model of the
Go map: increment in place when the key exists, append a fresh entry
otherwise. -/
def bump : List (String × Nat) → String → List (String × Nat)
  | [], s => [(s, 1)]
  | (k, v) :: rest, s =>
      if k = s then (k, v + 1) :: rest else (k, v) :: bump rest s

/-- `GetSubjectAuthorCounts` from `internal/services/book_service.go`
lines 146-214 (same aggregation in main.go lines 296-368): each author's
deduplicated subject set bumps the shared accumulator once per subject.
Goroutine completion order only permutes increments of a commutative
accumulator, so input order is used. -/
def GetSubjectAuthorCounts (oracle : Author → Except String (List WorkEntry))
    (authors : List Author) : List (String × Nat) :=
  authors.foldl (fun acc a => (authorSubjects oracle a).foldl bump acc) []

/-- Reading a Go `map[string]int` modelled as an association list:
`find?` the key. -/
def lookup2 (m : List (String × Nat)) (k : String) : Option Nat :=
  (m.find? (fun p => p.1 == k)).map (fun p => p.2)

/-- A map read in a value position: Go yields the zero value `0` for an
absent key. -/
def countOf (m : List (String × Nat)) (s : String) : Nat :=
  (lookup2 m s).getD 0

/-- The `commonSubjects` map of `FindMostCommonSubject` (book_service.go
lines 218-225): iterate `user1Subjects` (the list is that map in its
iteration order) and keep the subjects that `user2Subjects` also has, at
the summed weight. -/
def commonList (u1 u2 : List (String × Nat)) : List (String × Nat) :=
  u1.filterMap (fun p => (lookup2 u2 p.1).map (fun c2 => (p.1, p.2 + c2)))

/-- One step of a descending sort by count implementing the Go
`sort.Slice(subjectCounts, ...Count > ...Count)` call: a count-ordered
insertion.  Go's `sort.Slice` is not stable, so among equal counts the
real program may produce any order; this executable model fixes one
realizable outcome (ties keep insertion order), and no claim theorem
depends on which tied element ends up first. -/
def insertDesc (x : String × Nat) : List (String × Nat) → List (String × Nat)
  | [] => [x]
  | y :: ys => if x.2 > y.2 then x :: y :: ys else y :: insertDesc x ys

/-- The `subjectCounts` slice after the `sort.Slice` call: sorted by count
descending, one concrete resolution of ties among the permutations the
unstable Go sort may produce. -/
def sortByCountDesc (l : List (String × Nat)) : List (String × Nat) :=
  l.foldl (fun acc x => insertDesc x acc) []

/-- `FindMostCommonSubject` from `internal/services/book_service.go` lines
217-247 (same code in main.go `findMostCommonSubject` lines 371-401):
build `commonSubjects`, fail when it is empty, otherwise sort by combined
count descending and return the first subject. -/
def FindMostCommonSubject (u1 u2 : List (String × Nat)) : Except String String :=
  let common := commonList u1 u2
  if common.isEmpty then
    Except.error "No common subjects found between the users"
  else
    match sortByCountDesc common with
    | [] => Except.error "No common subjects found between the users"
    | x :: _ => Except.ok x.1

/-- The running maximum of the second `FindMostCommonSubject` variant
(book_service.go lines 381-402): `mostCommonSubject` starts as the empty
string and `highestCount` as `0`; a shared subject replaces them exactly
when its combined count is strictly greater. -/
def bestNameRM (u1 u2 : List (String × Nat)) : String × Nat :=
  u1.foldl
    (fun acc p =>
      match lookup2 u2 p.1 with
      | none => acc
      | some c2 => if p.2 + c2 > acc.2 then (p.1, p.2 + c2) else acc)
    ("", 0)

/-- The running-maximum `FindMostCommonSubject` variant (book_service.go
lines 381-402): after the scan it errors exactly when the accumulated
name is still the empty string. -/
def FindMostCommonSubjectRunningMax (u1 u2 : List (String × Nat)) :
    Except String String :=
  let best := bestNameRM u1 u2
  if best.1 = "" then
    Except.error "No common subjects found between the users"
  else
    Except.ok best.1

/-- Digit value of a decimal character. -/
def digitVal (c : Char) : Nat :=
  c.toNat - 48

/-- A regex word character, for the `\b` boundaries in `parseYear`. -/
def isWordChar (c : Char) : Bool :=
  c.isAlphanum || c = '_'

/-- Scan for the leftmost match of
`\b(1[0-9]{3}|2[0-9]{3})\b` (part_004 / part_005 `parseYear`): four
digits starting with 1 or 2, with no word character immediately before or
after.  `prev` is the character preceding the scan position, if any. -/
def parseYearAux : Option Char → List Char → Nat
  | _, [] => 0
  | prev, c1 :: rest =>
      match rest with
      | c2 :: c3 :: c4 :: rest2 =>
          if ((c1 = '1' || c1 = '2') && c2.isDigit && c3.isDigit && c4.isDigit
              && (match prev with | some p => !isWordChar p | none => true)
              && (match rest2 with | r :: _ => !isWordChar r | [] => true)) then
            1000 * digitVal c1 + 100 * digitVal c2 + 10 * digitVal c3 + digitVal c4
          else
            parseYearAux (some c1) rest
      | _ => 0

/-- `parseYear` from part_004 lines 24-36: extract a four-digit year from
a publish-date string, `0` when none is found. -/
def parseYear (publishDate : String) : Nat :=
  parseYearAux none publishDate.data

/-- One candidate of a subject query (`/subjects/{s}.json`) as decoded by
the `GetRecommendedBooks` variants: title, author names, work key, and
the `first_publish_year` field (Go's zero value `0` when absent). -/
structure SubjectWork where
  title : String
  authorNames : List String
  key : String
  firstPublishYear : Nat
deriving Repr, DecidableEq

/-- `models.Work` as populated by `GetRecommendedBooks` in
book_service.go lines 76-80: title, author names and an optional
description (`*string`); the year field is left unset there. -/
structure WorkOut where
  title : String
  authors : List String
  description : Option String
deriving Repr, DecidableEq

/-- `fetchDescription` (book_service.go lines 94-130): the work-detail
fetch either fails (request, network, read, or parse error) or yields the
parsed `description` field (`none` when absent), which the shared switch
normalizes. -/
def fetchDescription (raw : String → Except Unit (Option Json)) (workKey : String) :
    Except Unit (Option String) :=
  match raw workKey with
  | Except.error e => Except.error e
  | Except.ok d => Except.ok (normalizeDescription d)

/-- The candidate loop of `GetRecommendedBooks` (book_service.go lines
55-84): a work inside the publish-year window is dropped when
`fetchDescription` errors (`continue // Skip this book ...`, lines
63-66), and the loop breaks once three books are collected. -/
def recommendLoopV1 (currentYear : Nat) (raw : String → Except Unit (Option Json)) :
    List SubjectWork → List WorkOut → List WorkOut
  | [], acc => acc
  | w :: ws, acc =>
      if currentYear - 2 ≤ w.firstPublishYear ∧ w.firstPublishYear ≤ currentYear then
        if 3 ≤ acc.length then acc
        else
          match fetchDescription raw (trimPre w.key "/works/") with
          | Except.error _ => recommendLoopV1 currentYear raw ws acc
          | Except.ok d =>
              recommendLoopV1 currentYear raw ws
                (acc ++ [{ title := w.title, authors := w.authorNames, description := d }])
      else recommendLoopV1 currentYear raw ws acc

/-- `GetRecommendedBooks` from `internal/services/book_service.go` lines
16-91: filter the subject works to the `[currentYear-2, currentYear]`
window, fetch each description (skipping the work on a fetch error),
stop at three, and fail when nothing qualifies. -/
def GetRecommendedBooks (currentYear : Nat) (raw : String → Except Unit (Option Json))
    (subject : String) (works : List SubjectWork) : Except String (List WorkOut) :=
  let recentBooks := recommendLoopV1 currentYear raw works []
  if recentBooks.isEmpty then
    Except.error ("no books found for subject " ++ subject ++ " published in the last two years")
  else
    Except.ok recentBooks

/-- Outcome of the work-detail (description) fetch in part_004: the
request-construction error path returns early and drops the work (lines
155-159); a transport, read, or parse failure is only logged, leaving the
description nil (lines 161-175); otherwise the parsed `description`
field is available. -/
inductive DescFetch where
  | reqError
  | fetchError
  | ok (d : Option Json)

/-- The years of a work's editions that fall inside the publish window
(part_004 lines 136-146: `year >= currentYear-2 && year <= currentYear`). -/
def windowYears (currentYear : Nat) (dates : List String) : List Nat :=
  (dates.map parseYear).filter (fun y => currentYear - 2 ≤ y && y ≤ currentYear)

/-- `models.Work` as populated by part_004 lines 195-200: optional
description plus the most recent in-window edition year. -/
structure WorkEd where
  title : String
  authors : List String
  description : Option String
  mostRecentYear : Nat
deriving Repr, DecidableEq

/-- One goroutine body of part_004's `GetRecommendedBooks` (lines
95-206): fetch the work's editions (any failure drops the work), require
some edition year inside the window (`stillInPrint`), record the most
recent such year, then fetch the description — only the
request-construction error drops the work; other description failures
keep it with no description. -/
def processWork (currentYear : Nat) (editions : String → Except Unit (List String))
    (descOracle : String → DescFetch) (w : SubjectWork) : Option WorkEd :=
  let workKey := trimPre w.key "/works/"
  match editions workKey with
  | Except.error _ => none
  | Except.ok dates =>
      let wys := windowYears currentYear dates
      if wys.isEmpty then none
      else
        let mostRecentYear := wys.foldl max 0
        match descOracle workKey with
        | DescFetch.reqError => none
        | DescFetch.fetchError =>
            some { title := w.title, authors := w.authorNames,
                   description := none, mostRecentYear := mostRecentYear }
        | DescFetch.ok d =>
            some { title := w.title, authors := w.authorNames,
                   description := normalizeDescription d, mostRecentYear := mostRecentYear }

/-- `GetRecommendedBooks` from src/unnamed/part_004 lines 39-227: process
every candidate (the accumulator collects goroutine results; input order
is one possible completion order), fail when nothing survives, and
truncate to the first three — the `sort.Slice` by year is commented out
(lines 216-219), so no reordering happens. -/
def GetRecommendedBooksEditions (currentYear : Nat)
    (editions : String → Except Unit (List String)) (descOracle : String → DescFetch)
    (subject : String) (works : List SubjectWork) : Except String (List WorkEd) :=
  let recentBooks := works.filterMap (processWork currentYear editions descOracle)
  if recentBooks.isEmpty then
    Except.error ("No recent books found for subject " ++ subject)
  else
    Except.ok (recentBooks.take 3)

/-- The status-code logic of `RecommendationsHandler`
(src/unnamed/part_000 lines 128-171), after parameter validation and with
the two per-reader pipelines given by their results: a failed pipeline is
written as 500; a `FindMostCommonSubject` error as 404 (line 151); a
`GetRecommendedBooks` error — including its empty-result error — as 500
(line 159); success as 200. -/
def recommendationsStatus (r1 r2 : Except String (List (String × Nat)))
    (currentYear : Nat) (editions : String → Except Unit (List String))
    (descOracle : String → DescFetch) (subjectWorks : String → List SubjectWork) : Nat :=
  match r1, r2 with
  | Except.error _, _ => 500
  | _, Except.error _ => 500
  | Except.ok u1, Except.ok u2 =>
      match FindMostCommonSubject u1 u2 with
      | Except.error _ => 404
      | Except.ok s =>
          match GetRecommendedBooksEditions currentYear editions descOracle s (subjectWorks s) with
          | Except.error _ => 500
          | Except.ok _ => 200

/-! ## Helper lemmas -/

lemma find?_cons_true {α : Type} (p : α → Bool) (a : α) (l : List α) (h : p a = true) :
    List.find? p (a :: l) = some a := by
  rw [List.find?_cons, h]

lemma find?_cons_false {α : Type} (p : α → Bool) (a : α) (l : List α) (h : p a = false) :
    List.find? p (a :: l) = List.find? p l := by
  rw [List.find?_cons, h]

/-- The first element of maximal `f`-value in `b :: l`: the accumulator is
replaced exactly when a later element is strictly greater, which is the
selection discipline of both the author-disambiguation loop and a stable
descending sort's head. -/
def firstMaxBy {α : Type} (f : α → Nat) : α → List α → α
  | b, [] => b
  | b, x :: xs => if f b < f x then firstMaxBy f x xs else firstMaxBy f b xs

lemma firstMaxBy_mem {α : Type} (f : α → Nat) (b : α) (l : List α) :
    firstMaxBy f b l ∈ b :: l := by
  induction l generalizing b with
  | nil => simp [firstMaxBy]
  | cons x xs ih =>
      rw [firstMaxBy]
      split
      · have h := ih x
        simp only [List.mem_cons] at h ⊢
        tauto
      · have h := ih b
        simp only [List.mem_cons] at h ⊢
        tauto

lemma firstMaxBy_max {α : Type} (f : α → Nat) (b : α) (l : List α) :
    ∀ y ∈ b :: l, f y ≤ f (firstMaxBy f b l) := by
  induction l generalizing b with
  | nil =>
      intro y hy
      simp only [List.mem_cons, List.not_mem_nil, or_false] at hy
      subst hy
      simp [firstMaxBy]
  | cons x xs ih =>
      intro y hy
      rw [firstMaxBy]
      simp only [List.mem_cons] at hy
      by_cases h : f b < f x
      · rw [if_pos h]
        rcases hy with h1 | h1 | h1
        · rw [h1]
          exact le_trans (le_of_lt h) (ih x x (by simp))
        · rw [h1]
          exact ih x x (by simp)
        · exact ih x y (by simp [h1])
      · rw [if_neg h]
        rcases hy with h1 | h1 | h1
        · rw [h1]
          exact ih b b (by simp)
        · rw [h1]
          exact le_trans (Nat.le_of_not_lt h) (ih b b (by simp))
        · exact ih b y (by simp [h1])

lemma firstMaxBy_find? {α : Type} (f : α → Nat) (b : α) (l : List α) :
    (b :: l).find? (fun y => f y == f (firstMaxBy f b l)) = some (firstMaxBy f b l) := by
  induction l generalizing b with
  | nil =>
      rw [firstMaxBy]
      exact find?_cons_true _ _ _ (by simp)
  | cons x xs ih =>
      by_cases h : f b < f x
      · rw [firstMaxBy, if_pos h]
        have hx : f x ≤ f (firstMaxBy f x xs) := firstMaxBy_max f x xs x (by simp)
        rw [find?_cons_false (fun y => f y == f (firstMaxBy f x xs)) b (x :: xs)
          (by simp only [beq_eq_false_iff_ne, ne_eq]; omega)]
        exact ih x
      · rw [firstMaxBy, if_neg h]
        by_cases hb : f b = f (firstMaxBy f b xs)
        · have h1 := ih b
          rw [find?_cons_true (fun y => f y == f (firstMaxBy f b xs)) b xs
            (by simp [hb])] at h1
          rw [find?_cons_true (fun y => f y == f (firstMaxBy f b xs)) b (x :: xs)
            (by simp [hb])]
          exact h1
        · have hble : f b ≤ f (firstMaxBy f b xs) := firstMaxBy_max f b xs b (by simp)
          have hxb : f x ≤ f b := Nat.le_of_not_lt h
          have h1 := ih b
          rw [find?_cons_false (fun y => f y == f (firstMaxBy f b xs)) b xs
            (by simp only [beq_eq_false_iff_ne, ne_eq]; exact hb)] at h1
          rw [find?_cons_false (fun y => f y == f (firstMaxBy f b xs)) b (x :: xs)
            (by simp only [beq_eq_false_iff_ne, ne_eq]; exact hb)]
          rw [find?_cons_false (fun y => f y == f (firstMaxBy f b xs)) x xs
            (by simp only [beq_eq_false_iff_ne, ne_eq]; omega)]
          exact h1

lemma selectLoop_eq_firstMaxBy (ds : List AuthorDoc) (b : AuthorDoc) :
    selectLoop ds (b.workCount : Int) (mkSelected b) =
      mkSelected (firstMaxBy (fun d => d.workCount) b ds) := by
  induction ds generalizing b with
  | nil => rfl
  | cons d ds ih =>
      by_cases h : b.workCount < d.workCount
      · have h2 : (d.workCount : Int) > (b.workCount : Int) := by exact_mod_cast h
        rw [selectLoop, if_pos h2, firstMaxBy, if_pos h]
        exact ih d
      · have h2 : ¬ (d.workCount : Int) > (b.workCount : Int) := by exact_mod_cast h
        rw [selectLoop, if_neg h2, firstMaxBy, if_neg h]
        exact ih b

lemma selectAuthor_cons (d : AuthorDoc) (ds : List AuthorDoc) :
    selectAuthor (d :: ds) = mkSelected (firstMaxBy (fun x => x.workCount) d ds) := by
  have h : ((d.workCount : Int) > (-1 : Int)) := by omega
  rw [selectAuthor, selectLoop, if_pos h]
  exact selectLoop_eq_firstMaxBy ds d

lemma foldl_insertDesc_head (l : List (String × Nat)) (a : String × Nat)
    (rest : List (String × Nat)) :
    ∃ t, l.foldl (fun acc x => insertDesc x acc) (a :: rest) =
      firstMaxBy (fun p => p.2) a l :: t := by
  induction l generalizing a rest with
  | nil => exact ⟨rest, rfl⟩
  | cons x l ih =>
      rw [List.foldl_cons]
      by_cases h : a.2 < x.2
      · have hx : insertDesc x (a :: rest) = x :: a :: rest := by
          rw [insertDesc, if_pos h]
        rw [hx, firstMaxBy, if_pos h]
        exact ih x (a :: rest)
      · have hx : insertDesc x (a :: rest) = a :: insertDesc x rest := by
          rw [insertDesc, if_neg h]
        rw [hx, firstMaxBy, if_neg h]
        exact ih a (insertDesc x rest)

lemma sortByCountDesc_cons (c : String × Nat) (cs : List (String × Nat)) :
    ∃ t, sortByCountDesc (c :: cs) = firstMaxBy (fun p => p.2) c cs :: t := by
  have h : insertDesc c [] = [c] := rfl
  rw [sortByCountDesc, List.foldl_cons, h]
  exact foldl_insertDesc_head cs c []

lemma countOf_cons (k : String) (v : Nat) (m : List (String × Nat)) (s : String) :
    countOf ((k, v) :: m) s = if k = s then v else countOf m s := by
  by_cases h : k = s
  · rw [countOf, lookup2, find?_cons_true (fun p => p.1 == s) (k, v) m (by simp [h]),
      if_pos h]
    rfl
  · rw [countOf, lookup2, find?_cons_false (fun p => p.1 == s) (k, v) m (by simp [h]),
      if_neg h]
    rfl

lemma countOf_bump (m : List (String × Nat)) (t s : String) :
    countOf (bump m t) s = if s = t then countOf m s + 1 else countOf m s := by
  induction m with
  | nil =>
      by_cases h : s = t
      · rw [bump, countOf_cons, if_pos h.symm, if_pos h]
        rfl
      · rw [bump, countOf_cons, if_neg (fun hh => h hh.symm), if_neg h]
  | cons p rest ih =>
      obtain ⟨k, v⟩ := p
      by_cases hk : k = t
      · subst hk
        rw [bump, if_pos rfl, countOf_cons, countOf_cons]
        by_cases hs : k = s
        · rw [if_pos hs, if_pos hs, if_pos hs.symm]
        · rw [if_neg hs, if_neg hs, if_neg (fun hh => hs hh.symm)]
      · rw [bump, if_neg hk, countOf_cons, countOf_cons]
        by_cases hs : k = s
        · have hst : ¬ s = t := fun hh => hk (hs.trans hh)
          rw [if_pos hs, if_pos hs, if_neg hst]
        · rw [if_neg hs, if_neg hs, ih]

lemma countOf_foldl_bump : ∀ (subs : List String), subs.Nodup →
    ∀ (acc : List (String × Nat)) (s : String),
    countOf (subs.foldl bump acc) s = countOf acc s + (if s ∈ subs then 1 else 0) := by
  intro subs
  induction subs with
  | nil =>
      intro _ acc s
      simp
  | cons t ts ih =>
      intro hn acc s
      have ht : t ∉ ts := (List.nodup_cons.mp hn).1
      have hts : ts.Nodup := (List.nodup_cons.mp hn).2
      rw [List.foldl_cons, ih hts (bump acc t) s, countOf_bump]
      by_cases hs : s = t
      · subst hs
        rw [if_pos rfl, if_neg ht, if_pos (by simp)]
      · rw [if_neg hs]
        have hmem : (s ∈ t :: ts) ↔ (s ∈ ts) := by simp [hs]
        simp only [hmem]

lemma authorSubjects_nodup (oracle : Author → Except String (List WorkEntry)) (a : Author) :
    (authorSubjects oracle a).Nodup := by
  rw [authorSubjects]
  cases oracle a with
  | error e => exact List.nodup_nil
  | ok entries => exact List.nodup_dedup _

lemma countOf_foldAuthors : ∀ (authors : List Author)
    (oracle : Author → Except String (List WorkEntry)) (acc : List (String × Nat)) (s : String),
    countOf (authors.foldl (fun acc a => (authorSubjects oracle a).foldl bump acc) acc) s
      = countOf acc s + authors.countP (fun a => decide (s ∈ authorSubjects oracle a)) := by
  intro authors
  induction authors with
  | nil =>
      intro oracle acc s
      simp
  | cons a as ih =>
      intro oracle acc s
      rw [List.foldl_cons, ih,
        countOf_foldl_bump (authorSubjects oracle a) (authorSubjects_nodup oracle a) acc s]
      simp only [List.countP_cons, decide_eq_true_eq]
      by_cases hs : s ∈ authorSubjects oracle a
      · rw [if_pos hs]
        omega
      · rw [if_neg hs]
        omega

lemma lookup2_of_mem_nodup : ∀ (u : List (String × Nat)) (k : String) (v : Nat),
    (u.map Prod.fst).Nodup → (k, v) ∈ u → lookup2 u k = some v := by
  intro u
  induction u with
  | nil =>
      intro k v _ h
      cases h
  | cons p rest ih =>
      intro k v hn hmem
      obtain ⟨k1, v1⟩ := p
      simp only [List.map_cons, List.nodup_cons] at hn
      rcases List.mem_cons.mp hmem with heq | hmem2
      · cases heq
        rw [lookup2, find?_cons_true (fun p => p.1 == k) (k, v) rest (by simp)]
        rfl
      · have hk : ¬ (k1 = k) := by
          intro hh
          subst hh
          exact hn.1 (List.mem_map.mpr ⟨(k1, v), hmem2, rfl⟩)
        rw [lookup2, find?_cons_false (fun p => p.1 == k) (k1, v1) rest (by simp [hk])]
        exact ih k v hn.2 hmem2

lemma mem_of_lookup2_eq_some (u : List (String × Nat)) (k : String) (v : Nat)
    (h : lookup2 u k = some v) : (k, v) ∈ u := by
  rw [lookup2] at h
  cases hf : u.find? (fun p => p.1 == k) with
  | none =>
      rw [hf] at h
      cases h
  | some p =>
      rw [hf] at h
      have hp := List.find?_some hf
      have hm : p ∈ u := List.mem_of_find?_eq_some hf
      have hk : p.1 = k := by simpa using hp
      have hv : p.2 = v := by simpa using h
      have hpe : p = (k, v) := by
        obtain ⟨a, b⟩ := p
        simp only at hk hv
        rw [hk, hv]
      rw [← hpe]
      exact hm

lemma init_le_foldlMax : ∀ (l : List Nat) (a : Nat), a ≤ l.foldl max a := by
  intro l
  induction l with
  | nil =>
      intro a
      exact Nat.le_refl a
  | cons x xs ih =>
      intro a
      rw [List.foldl_cons]
      exact le_trans (le_max_left a x) (ih (max a x))

lemma le_foldlMax : ∀ (l : List Nat) (a x : Nat), x ∈ l → x ≤ l.foldl max a := by
  intro l
  induction l with
  | nil =>
      intro a x hx
      cases hx
  | cons y ys ih =>
      intro a x hx
      rw [List.foldl_cons]
      rcases List.mem_cons.mp hx with h | h
      · subst h
        exact le_trans (le_max_right a x) (init_le_foldlMax ys (max a x))
      · exact ih (max a y) x h

lemma foldlMax_le : ∀ (l : List Nat) (a c : Nat), a ≤ c → (∀ x ∈ l, x ≤ c) →
    l.foldl max a ≤ c := by
  intro l
  induction l with
  | nil =>
      intro a c ha _
      simpa using ha
  | cons x xs ih =>
      intro a c ha hall
      rw [List.foldl_cons]
      exact ih (max a x) c (max_le ha (hall x (by simp))) (fun y hy => hall y (by simp [hy]))

/-! ## Claim theorems -/

/-- C6: for every `ResolvedAuthor` set given to `GetSubjectAuthorCounts`,
the resulting weight of any subject is at most the number of authors in
the set — each author contributes at most 1 to a subject's weight no
matter how many of its sampled works carry the (lower-cased, trimmed)
subject — and the weight is 0 for subjects no author in the set is tagged
with. -/
theorem GetSubjectAuthorCounts_weight_le_authors
    (oracle : Author → Except String (List WorkEntry)) (authors : List Author) (s : String) :
    countOf (GetSubjectAuthorCounts oracle authors) s ≤ authors.length ∧
    ((∀ a ∈ authors, s ∉ authorSubjects oracle a) →
      countOf (GetSubjectAuthorCounts oracle authors) s = 0) := by
  have hchar : countOf (GetSubjectAuthorCounts oracle authors) s
      = authors.countP (fun a => decide (s ∈ authorSubjects oracle a)) := by
    rw [GetSubjectAuthorCounts, countOf_foldAuthors]
    simp [countOf, lookup2]
  constructor
  · rw [hchar]
    exact List.countP_le_length _
  · intro h
    rw [hchar]
    rw [List.countP_eq_zero]
    intro a ha
    simp [h a ha]

/-- Concrete instance of `GetSubjectAuthorCounts_weight_le_authors`: one
author whose works never mention "horror" yields weight 0 for it. -/
def c6oracle : Author → Except String (List WorkEntry) :=
  fun _ => Except.ok [{ title := "Dune", subjects := ["Science Fiction", " fantasy "] }]

def c6author : Author :=
  { name := "A", key := "OL1A", workCount := 5 }

theorem GetSubjectAuthorCounts_weight_le_authors_witness :
    countOf (GetSubjectAuthorCounts c6oracle [c6author]) "horror" ≤ 1 ∧
    countOf (GetSubjectAuthorCounts c6oracle [c6author]) "horror" = 0 := by
  have h := GetSubjectAuthorCounts_weight_le_authors c6oracle [c6author] "horror"
  exact ⟨h.1, h.2 (by decide)⟩

/-- C7: for a non-empty candidate list, `ResolveAuthorKeys`' selection
loop picks the candidate with the greatest `workCount`, and under ties the
first-seen candidate in upstream response order: the selected author is
built from the first doc whose `workCount` equals the maximal selected
`workCount`. -/
theorem selectAuthor_first_greatest_workCount (docs : List AuthorDoc) (h : docs ≠ []) :
    ∃ b : AuthorDoc,
      docs.find? (fun d => d.workCount == (selectAuthor docs).workCount) = some b ∧
      selectAuthor docs = mkSelected b ∧
      ∀ d ∈ docs, d.workCount ≤ (selectAuthor docs).workCount := by
  cases docs with
  | nil => exact absurd rfl h
  | cons d ds =>
      rw [selectAuthor_cons]
      refine ⟨firstMaxBy (fun x => x.workCount) d ds, ?_, rfl, ?_⟩
      · exact firstMaxBy_find? (fun x => x.workCount) d ds
      · intro x hx
        exact firstMaxBy_max (fun x => x.workCount) d ds x hx

def c7docs : List AuthorDoc :=
  [{ name := "X", key := "/authors/OL1A", workCount := 3 },
   { name := "Y", key := "/authors/OL2A", workCount := 7 },
   { name := "Z", key := "/authors/OL3A", workCount := 7 }]

theorem selectAuthor_first_greatest_workCount_witness :
    ∃ b : AuthorDoc,
      c7docs.find? (fun d => d.workCount == (selectAuthor c7docs).workCount) = some b ∧
      selectAuthor c7docs = mkSelected b ∧
      ∀ d ∈ c7docs, d.workCount ≤ (selectAuthor c7docs).workCount :=
  selectAuthor_first_greatest_workCount c7docs (by simp [c7docs])

/-- C9: the description normalizer maps `{"description": {"value": "X"}}`
and `{"description": "X"}` to the same optional string `"X"`, maps an
absent description field (or any other shape) to the absent value, and
(in part_004) a work whose parsed description field is absent is still
included, with no description. -/
theorem description_normalization_round_trip :
    (∀ X : String, normalizeDescription (some (Json.str X)) = some X) ∧
    (∀ X : String, normalizeDescription (some (Json.obj [("value", Json.str X)])) = some X) ∧
    normalizeDescription none = none ∧
    (∀ (currentYear : Nat) (editions : String → Except Unit (List String))
        (descOracle : String → DescFetch) (w : SubjectWork) (dates : List String),
      editions (trimPre w.key "/works/") = Except.ok dates →
      (windowYears currentYear dates).isEmpty = false →
      descOracle (trimPre w.key "/works/") = DescFetch.ok none →
      ∃ out : WorkEd, processWork currentYear editions descOracle w = some out ∧
        out.description = none) := by
  refine ⟨fun X => rfl, fun X => rfl, rfl, ?_⟩
  intro currentYear editions descOracle w dates hed hwin hdesc
  simp only [processWork, hed, hwin, hdesc, Bool.false_eq_true, if_false]
  exact ⟨_, rfl, rfl⟩

def c9editions : String → Except Unit (List String) :=
  fun _ => Except.ok ["January 2, 2024"]

def c9desc : String → DescFetch :=
  fun _ => DescFetch.ok none

def c9work : SubjectWork :=
  { title := "T", authorNames := ["A"], key := "/works/W1", firstPublishYear := 0 }

theorem description_normalization_round_trip_witness :
    normalizeDescription (some (Json.str "X")) = some "X" ∧
    normalizeDescription (some (Json.obj [("value", Json.str "X")])) = some "X" ∧
    (∃ out : WorkEd, processWork 2024 c9editions c9desc c9work = some out ∧
      out.description = none) := by
  have h := description_normalization_round_trip
  exact ⟨h.1 "X", h.2.1 "X",
    h.2.2.2 2024 c9editions c9desc c9work ["January 2, 2024"] rfl (by decide) rfl⟩

/-- C10: the running-maximum `FindMostCommonSubject` variant raises the
"no common subjects" error exactly when the computed best subject name is
the empty string; since a whitespace-only subject tag normalizes upstream
to the empty-string key, two maps sharing only that key make the function
report no common subjects even though their intersection is non-empty. -/
theorem FindMostCommonSubjectRunningMax_empty_name_error :
    (∀ u1 u2 : List (String × Nat),
      (∃ e, FindMostCommonSubjectRunningMax u1 u2 = Except.error e) ↔
        (bestNameRM u1 u2).1 = "") ∧
    normalizeSubject "   " = "" ∧
    lookup2 [("", 1)] "" = some 1 ∧
    (∃ e, FindMostCommonSubjectRunningMax [("", 1)] [("", 1)] = Except.error e) := by
  refine ⟨?_, by decide, rfl, ⟨"No common subjects found between the users", rfl⟩⟩
  intro u1 u2
  by_cases h : (bestNameRM u1 u2).1 = ""
  · rw [FindMostCommonSubjectRunningMax]
    simp [h]
  · rw [FindMostCommonSubjectRunningMax]
    simp [h]

lemma mem_commonList (u1 u2 : List (String × Nat)) (p : String × Nat) :
    p ∈ commonList u1 u2 ↔
      ∃ c1 c2, (p.1, c1) ∈ u1 ∧ lookup2 u2 p.1 = some c2 ∧ p.2 = c1 + c2 := by
  obtain ⟨ps, pv⟩ := p
  rw [commonList, List.mem_filterMap]
  constructor
  · rintro ⟨a, ha, hfa⟩
    cases hl : lookup2 u2 a.1 with
    | none =>
        rw [hl] at hfa
        cases hfa
    | some c2 =>
        rw [hl] at hfa
        simp only [Option.map_some'] at hfa
        cases hfa
        refine ⟨a.2, c2, ?_, hl, rfl⟩
        simpa using ha
  · rintro ⟨c1, c2, h1, h2, h3⟩
    dsimp only at h1 h2 h3
    refine ⟨(ps, c1), h1, ?_⟩
    show (lookup2 u2 ps).map (fun c2 => (ps, c1 + c2)) = some (ps, pv)
    rw [h2, h3]
    rfl

lemma FindMostCommonSubject_eq_ok (u1 u2 : List (String × Nat)) (c : String × Nat)
    (cs : List (String × Nat)) (hc : commonList u1 u2 = c :: cs) :
    FindMostCommonSubject u1 u2 = Except.ok ((firstMaxBy (fun p => p.2) c cs).1) := by
  obtain ⟨t, hsort⟩ := sortByCountDesc_cons c cs
  simp only [FindMostCommonSubject, hc, hsort, List.isEmpty_cons, Bool.false_eq_true,
    if_false]

lemma FindMostCommonSubject_eq_error (u1 u2 : List (String × Nat))
    (hc : commonList u1 u2 = []) :
    FindMostCommonSubject u1 u2 =
      Except.error "No common subjects found between the users" := by
  simp only [FindMostCommonSubject, hc, List.isEmpty_nil, if_true]

/-- C8: `FindMostCommonSubject` returns a subject present in both maps
whose combined weight is maximal over the intersection (a subject absent
from either map is never returned), and it returns the "no common
subjects" error exactly when the intersection of the key sets is empty. -/
theorem FindMostCommonSubject_max_over_intersection
    (u1 u2 : List (String × Nat)) (hn : (u1.map Prod.fst).Nodup) :
    ((∃ k c1 c2, (k, c1) ∈ u1 ∧ lookup2 u2 k = some c2) →
      ∃ s c1 c2, FindMostCommonSubject u1 u2 = Except.ok s ∧
        lookup2 u1 s = some c1 ∧ lookup2 u2 s = some c2 ∧
        ∀ k d1 d2, lookup2 u1 k = some d1 → lookup2 u2 k = some d2 →
          d1 + d2 ≤ c1 + c2) ∧
    ((∀ k c1, (k, c1) ∈ u1 → lookup2 u2 k = none) →
      ∃ e, FindMostCommonSubject u1 u2 = Except.error e) := by
  constructor
  · rintro ⟨k, c1, c2, hk1, hk2⟩
    have hmem : (k, c1 + c2) ∈ commonList u1 u2 :=
      (mem_commonList u1 u2 (k, c1 + c2)).mpr ⟨c1, c2, hk1, hk2, rfl⟩
    cases hc : commonList u1 u2 with
    | nil =>
        rw [hc] at hmem
        cases hmem
    | cons c cs =>
        have hres := FindMostCommonSubject_eq_ok u1 u2 c cs hc
        have hRmem : firstMaxBy (fun p => p.2) c cs ∈ commonList u1 u2 := by
          rw [hc]
          exact firstMaxBy_mem (fun p => p.2) c cs
        obtain ⟨c1', c2', hm1, hm2, hm3⟩ :=
          (mem_commonList u1 u2 (firstMaxBy (fun p => p.2) c cs)).mp hRmem
        refine ⟨(firstMaxBy (fun p => p.2) c cs).1, c1', c2', hres,
          lookup2_of_mem_nodup u1 _ c1' hn hm1, hm2, ?_⟩
        intro k0 d1 d2 hd1 hd2
        have hk0 : (k0, d1) ∈ u1 := mem_of_lookup2_eq_some u1 k0 d1 hd1
        have hcm : (k0, d1 + d2) ∈ commonList u1 u2 :=
          (mem_commonList u1 u2 (k0, d1 + d2)).mpr ⟨d1, d2, hk0, hd2, rfl⟩
        have hle : (k0, d1 + d2).2 ≤ (firstMaxBy (fun p => p.2) c cs).2 := by
          rw [hc] at hcm
          exact firstMaxBy_max (fun p => p.2) c cs (k0, d1 + d2) hcm
        rw [hm3] at hle
        exact hle
  · intro hall
    have hnil : commonList u1 u2 = [] := by
      rw [commonList, List.filterMap_eq_nil_iff]
      intro a ha
      rw [hall a.1 a.2 (by simpa using ha)]
      rfl
    exact ⟨_, FindMostCommonSubject_eq_error u1 u2 hnil⟩

theorem FindMostCommonSubject_max_over_intersection_witness :
    ∃ s c1 c2,
      FindMostCommonSubject [("a", 1), ("b", 2)] [("b", 3)] = Except.ok s ∧
      lookup2 [("a", 1), ("b", 2)] s = some c1 ∧
      lookup2 [("b", 3)] s = some c2 ∧
      ∀ k d1 d2, lookup2 [("a", 1), ("b", 2)] k = some d1 →
        lookup2 [("b", 3)] k = some d2 → d1 + d2 ≤ c1 + c2 :=
  (FindMostCommonSubject_max_over_intersection [("a", 1), ("b", 2)] [("b", 3)]
    (by decide)).1 ⟨"b", 2, 3, by decide, by decide⟩

/-- C3 counterexample: the two association lists are the same map (a
permutation, i.e. the same key-value set, as Go's randomized map
iteration can present it in either order), both shared subjects tie at
combined weight 2, yet `FindMostCommonSubject` returns "a" under one
iteration order and "b" under the other — so the tied result is not the
lexicographically smallest name ("a" < "b" but "b" is returned), and
repeated invocations on the same two maps need not agree. -/
theorem FindMostCommonSubject_tie_not_lex_smallest :
    List.Perm [("a", (1 : Nat)), ("b", 1)] [("b", 1), ("a", 1)] ∧
    FindMostCommonSubject [("a", 1), ("b", 1)] [("a", 1), ("b", 1)] = Except.ok "a" ∧
    FindMostCommonSubject [("b", 1), ("a", 1)] [("b", 1), ("a", 1)] = Except.ok "b" ∧
    "a".data < "b".data := by
  refine ⟨by decide, rfl, rfl, by decide⟩

/-- C3 amended: `FindMostCommonSubject` returns a shared subject whose
combined weight is maximal over the common subjects, deterministically in
the weight; but which tied subject is returned is not determined by the
map contents — it depends on the randomized iteration order of the
`commonSubjects` map and on the unstable `sort.Slice` — so it is not the
lexicographically smallest and repeated invocations need not agree.  The
property stated here holds under every tie resolution the program can
produce: any descending sort puts a maximal-weight common subject first. -/
theorem FindMostCommonSubject_returns_max_weight_shared
    (u1 u2 : List (String × Nat)) (s : String)
    (h : FindMostCommonSubject u1 u2 = Except.ok s) :
    ∃ w, (s, w) ∈ commonList u1 u2 ∧ ∀ p ∈ commonList u1 u2, p.2 ≤ w := by
  cases hc : commonList u1 u2 with
  | nil =>
      rw [FindMostCommonSubject_eq_error u1 u2 hc] at h
      cases h
  | cons c cs =>
      rw [FindMostCommonSubject_eq_ok u1 u2 c cs hc] at h
      injection h with h
      refine ⟨(firstMaxBy (fun p => p.2) c cs).2, ?_, ?_⟩
      · rw [← h]
        exact firstMaxBy_mem (fun p => p.2) c cs
      · intro p hp
        exact firstMaxBy_max (fun p => p.2) c cs p hp

theorem FindMostCommonSubject_returns_max_weight_shared_witness :
    ∃ w, ("y", w) ∈ commonList [("x", 2), ("y", 1)] [("y", 5), ("x", 1)] ∧
      ∀ p ∈ commonList [("x", 2), ("y", 1)] [("y", 5), ("x", 1)], p.2 ≤ w :=
  FindMostCommonSubject_returns_max_weight_shared [("x", 2), ("y", 1)] [("y", 5), ("x", 1)] "y" rfl

/-- The error messages `ResolveAuthorKeys` pushes onto `errCh`, one per
failing or candidate-less name, in input order. -/
def errsOf (lookup : String → LookupResult) (authors : List String) : List String :=
  authors.filterMap (fun name =>
    match lookup name with
    | LookupResult.failure msg => some ("Author " ++ name ++ ": " ++ msg)
    | LookupResult.docs [] => some ("No authors found for " ++ name)
    | LookupResult.docs (_ :: _) => none)

lemma ResolveAuthorKeys_fold (lookup : String → LookupResult) :
    ∀ (authors : List String) (acc : List Author × List String),
    authors.foldl
      (fun (acc : List Author × List String) (name : String) =>
        match lookup name with
        | LookupResult.failure msg => (acc.1, acc.2 ++ ["Author " ++ name ++ ": " ++ msg])
        | LookupResult.docs [] => (acc.1, acc.2 ++ ["No authors found for " ++ name])
        | LookupResult.docs (d :: ds) => (acc.1 ++ [selectAuthor (d :: ds)], acc.2)) acc
      = (acc.1 ++ authors.filterMap (resolvedOf lookup), acc.2 ++ errsOf lookup authors) := by
  intro authors
  induction authors with
  | nil =>
      intro acc
      simp [errsOf]
  | cons n ns ih =>
      intro acc
      rw [List.foldl_cons]
      cases hl : lookup n with
      | failure msg =>
          rw [ih]
          simp [errsOf, List.filterMap_cons, resolvedOf, hl]
      | docs ds =>
          cases ds with
          | nil =>
              rw [ih]
              simp [errsOf, List.filterMap_cons, resolvedOf, hl]
          | cons d ds =>
              rw [ih]
              simp [errsOf, List.filterMap_cons, resolvedOf, hl]

lemma ResolveAuthorKeys_eq (lookup : String → LookupResult) (authors : List String) :
    ResolveAuthorKeys lookup authors =
      if (errsOf lookup authors).isEmpty then
        Except.ok (authors.filterMap (resolvedOf lookup))
      else Except.error (String.intercalate "; " (errsOf lookup authors)) := by
  rw [ResolveAuthorKeys]
  rw [ResolveAuthorKeys_fold lookup authors ([], [])]
  simp

/-- Upstream responses for the C1 scenario: the search for "y" returns a
single candidate, any other name fails with a network error. -/
def c1lookup : String → LookupResult := fun n =>
  if n = "y" then LookupResult.docs [{ name := "Y", key := "/authors/OLY", workCount := 5 }]
  else LookupResult.failure "connection refused"

/-- C1 counterexample: in the author_service.go `ResolveAuthorKeys`, a
batch of two names in which "y" resolves successfully but "x" fails
returns an error for the whole batch — the successfully resolved subset
is discarded — refuting the claim that a single name's lookup failure
never causes the batch call to return an error. -/
theorem ResolveAuthorKeys_single_failure_aborts_batch :
    (resolvedOf c1lookup "y").isSome = true ∧
    ResolveAuthorKeys c1lookup ["x", "y"] =
      Except.error "Author x: connection refused" := by
  exact ⟨rfl, rfl⟩

/-- C1 amended: the skip-variant `resolveAuthorKeys` (main.go, part_003)
behaves as the claim says — every batch returns, without error, exactly
the subset of names that resolved — while the errCh-variant
`ResolveAuthorKeys` (author_service.go) returns an error for the whole
batch whenever any single name's lookup fails or yields zero candidates,
even if other names resolved. -/
theorem resolveAuthorKeys_skip_returns_resolved_subset :
    (∀ (lookup : String → LookupResult) (authors : List String),
      resolveAuthorKeys lookup authors =
        Except.ok (authors.filterMap (resolvedOf lookup))) ∧
    (∀ (lookup : String → LookupResult) (authors : List String) (name : String),
      name ∈ authors → resolvedOf lookup name = none →
      ∃ e, ResolveAuthorKeys lookup authors = Except.error e) := by
  constructor
  · intro lookup authors
    rw [resolveAuthorKeys]
    congr 1
    have h : ∀ (ns : List String) (acc : List Author),
        ns.foldl (fun acc name =>
          match lookup name with
          | LookupResult.failure _ => acc
          | LookupResult.docs [] => acc
          | LookupResult.docs (d :: ds) => acc ++ [selectAuthor (d :: ds)]) acc
        = acc ++ ns.filterMap (resolvedOf lookup) := by
      intro ns
      induction ns with
      | nil =>
          intro acc
          simp
      | cons n ns ih =>
          intro acc
          rw [List.foldl_cons]
          cases hl : lookup n with
          | failure msg =>
              rw [ih]
              simp [List.filterMap_cons, resolvedOf, hl]
          | docs ds =>
              cases ds with
              | nil =>
                  rw [ih]
                  simp [List.filterMap_cons, resolvedOf, hl]
              | cons d ds =>
                  rw [ih]
                  simp [List.filterMap_cons, resolvedOf, hl]
    simpa using h authors []
  · intro lookup authors name hmem hnone
    have hmsg : ∃ m, m ∈ errsOf lookup authors := by
      cases hl : lookup name with
      | failure msg =>
          refine ⟨"Author " ++ name ++ ": " ++ msg, ?_⟩
          rw [errsOf, List.mem_filterMap]
          exact ⟨name, hmem, by rw [hl]⟩
      | docs ds =>
          cases ds with
          | nil =>
              refine ⟨"No authors found for " ++ name, ?_⟩
              rw [errsOf, List.mem_filterMap]
              exact ⟨name, hmem, by rw [hl]⟩
          | cons d ds =>
              rw [resolvedOf, hl] at hnone
              cases hnone
    obtain ⟨m, hm⟩ := hmsg
    have hne : (errsOf lookup authors).isEmpty = false := by
      cases he : errsOf lookup authors with
      | nil =>
          rw [he] at hm
          cases hm
      | cons a t => rfl
    rw [ResolveAuthorKeys_eq, hne]
    exact ⟨_, rfl⟩

theorem resolveAuthorKeys_skip_returns_resolved_subset_witness :
    resolveAuthorKeys c1lookup ["x", "y"] =
      Except.ok (["x", "y"].filterMap (resolvedOf c1lookup)) ∧
    (∃ e, ResolveAuthorKeys c1lookup ["x", "y"] = Except.error e) := by
  have h := resolveAuthorKeys_skip_returns_resolved_subset
  exact ⟨h.1 c1lookup ["x", "y"], h.2 c1lookup ["x", "y"] "x" (by decide) (by decide)⟩

/-- C2 scenario: one subject work published this year; the description
fetch fails in one run and returns an absent description field in the
other. -/
def c2works : List SubjectWork :=
  [{ title := "Qualifying Book", authorNames := ["A"], key := "/works/WQ",
     firstPublishYear := 2024 }]

def c2rawFail : String → Except Unit (Option Json) := fun _ => Except.error ()

def c2rawOk : String → Except Unit (Option Json) := fun _ => Except.ok none

/-- C2 counterexample: in book_service.go's `GetRecommendedBooks`, a work
inside the publish-year window is returned when its description fetch
succeeds, but the same work is skipped (`continue`, lines 63-66) when the
fetch fails — here leaving the result empty, so the whole call errors —
refuting the claim that a description-fetch failure never excludes the
work. -/
theorem GetRecommendedBooks_desc_failure_drops_work :
    GetRecommendedBooks 2024 c2rawOk "horror" c2works =
      Except.ok [{ title := "Qualifying Book", authors := ["A"], description := none }] ∧
    fetchDescription c2rawFail "WQ" = Except.error () ∧
    GetRecommendedBooks 2024 c2rawFail "horror" c2works =
      Except.error "no books found for subject horror published in the last two years" := by
  exact ⟨rfl, rfl, rfl⟩

/-- C2 amended: the part_004 `GetRecommendedBooks` behaves as the claim
says — a candidate work with an in-window edition year whose description
fetch (transport, read, or parse) fails is kept, with an absent
description, in the collected result list — whereas the book_service.go
variant drops such a work entirely. -/
theorem GetRecommendedBooksEditions_desc_failure_keeps_work
    (currentYear : Nat) (editions : String → Except Unit (List String))
    (descOracle : String → DescFetch) (works : List SubjectWork) (w : SubjectWork)
    (dates : List String)
    (hmem : w ∈ works)
    (hed : editions (trimPre w.key "/works/") = Except.ok dates)
    (hwin : (windowYears currentYear dates).isEmpty = false)
    (hdesc : descOracle (trimPre w.key "/works/") = DescFetch.fetchError) :
    ∃ out : WorkEd, processWork currentYear editions descOracle w = some out ∧
      out.description = none ∧
      out ∈ works.filterMap (processWork currentYear editions descOracle) := by
  have hpw : processWork currentYear editions descOracle w =
      some { title := w.title, authors := w.authorNames, description := none,
             mostRecentYear := (windowYears currentYear dates).foldl max 0 } := by
    simp only [processWork, hed, hwin, hdesc, Bool.false_eq_true, if_false]
  exact ⟨_, hpw, rfl, List.mem_filterMap.mpr ⟨w, hmem, hpw⟩⟩

def c2editions : String → Except Unit (List String) := fun _ => Except.ok ["2024"]

def c2descFail : String → DescFetch := fun _ => DescFetch.fetchError

theorem GetRecommendedBooksEditions_desc_failure_keeps_work_witness :
    ∃ out : WorkEd,
      processWork 2024 c2editions c2descFail
        { title := "Qualifying Book", authorNames := ["A"], key := "/works/WQ",
          firstPublishYear := 2024 } = some out ∧
      out.description = none ∧
      out ∈ c2works.filterMap (processWork 2024 c2editions c2descFail) :=
  GetRecommendedBooksEditions_desc_failure_keeps_work 2024 c2editions c2descFail
    c2works
    { title := "Qualifying Book", authorNames := ["A"], key := "/works/WQ",
      firstPublishYear := 2024 }
    ["2024"] (by decide) rfl (by decide) rfl

lemma processWork_year (currentYear : Nat) (editions : String → Except Unit (List String))
    (descOracle : String → DescFetch) (w : SubjectWork) (out : WorkEd)
    (h : processWork currentYear editions descOracle w = some out) :
    ∃ dates, editions (trimPre w.key "/works/") = Except.ok dates ∧
      (windowYears currentYear dates).isEmpty = false ∧
      out.mostRecentYear = (windowYears currentYear dates).foldl max 0 := by
  cases hed : editions (trimPre w.key "/works/") with
  | error e =>
      simp [processWork, hed] at h
  | ok dates =>
      simp only [processWork, hed] at h
      by_cases hw : (windowYears currentYear dates).isEmpty
      · rw [if_pos hw] at h
        cases h
      · rw [if_neg hw] at h
        refine ⟨dates, rfl, Bool.eq_false_iff.mpr hw, ?_⟩
        cases hdo : descOracle (trimPre w.key "/works/") with
        | reqError =>
            rw [hdo] at h
            cases h
        | fetchError =>
            rw [hdo] at h
            cases h
            rfl
        | ok d =>
            rw [hdo] at h
            cases h
            rfl

lemma windowYears_bounds (currentYear : Nat) (dates : List String)
    (h : (windowYears currentYear dates).isEmpty = false) :
    currentYear - 2 ≤ (windowYears currentYear dates).foldl max 0 ∧
    (windowYears currentYear dates).foldl max 0 ≤ currentYear := by
  have hmem : ∀ x ∈ windowYears currentYear dates,
      currentYear - 2 ≤ x ∧ x ≤ currentYear := by
    intro x hx
    rw [windowYears] at hx
    have h2 := (List.mem_filter.mp hx).2
    simp only [Bool.and_eq_true, decide_eq_true_eq] at h2
    exact h2
  obtain ⟨y, hy⟩ : ∃ y, y ∈ windowYears currentYear dates := by
    cases hwl : windowYears currentYear dates with
    | nil =>
        rw [hwl] at h
        simp at h
    | cons a t =>
        exact ⟨a, by simp⟩
  constructor
  · exact le_trans (hmem y hy).1 (le_foldlMax _ 0 y hy)
  · exact foldlMax_le _ 0 currentYear (Nat.zero_le _) (fun x hx => (hmem x hx).2)

def c4editions : String → Except Unit (List String) := fun k =>
  if k = "W1" then Except.ok ["2023"] else Except.ok ["2024"]

def c4desc : String → DescFetch := fun _ => DescFetch.ok none

def c4works : List SubjectWork :=
  [{ title := "Older", authorNames := ["A"], key := "/works/W1", firstPublishYear := 0 },
   { title := "Newer", authorNames := ["B"], key := "/works/W2", firstPublishYear := 0 }]

/-- C4 counterexample: part_004's `GetRecommendedBooks` applies no sort
(the `sort.Slice` is commented out), so with the 2023 candidate
processed before the 2024 one the returned list is in ascending year
order, refuting the claim that the output is sorted by most-recent
qualifying publish year descending. -/
theorem GetRecommendedBooksEditions_output_not_sorted :
    GetRecommendedBooksEditions 2024 c4editions c4desc "history" c4works =
      Except.ok
        [{ title := "Older", authors := ["A"], description := none, mostRecentYear := 2023 },
         { title := "Newer", authors := ["B"], description := none, mostRecentYear := 2024 }] ∧
    ¬ List.Sorted (fun a b : WorkEd => b.mostRecentYear ≤ a.mostRecentYear)
        [{ title := "Older", authors := ["A"], description := none, mostRecentYear := 2023 },
         { title := "Newer", authors := ["B"], description := none, mostRecentYear := 2024 }] := by
  constructor
  · rfl
  · intro hs
    have h1 := (List.sorted_cons.mp hs).1
      { title := "Newer", authors := ["B"], description := none, mostRecentYear := 2024 }
      (by simp)
    simp at h1

/-- C4 amended: for every subject, part_004's `GetRecommendedBooks`
returns at most 3 works and never a work whose most recent qualifying
edition year lies outside `[currentYear-2, currentYear]` (works with no
in-window parseable year are excluded), but the list is returned in
candidate-completion order without sorting, so it is sorted by recency
descending only when the surviving candidates happen to complete
newest-first. -/
theorem GetRecommendedBooksEditions_len_window
    (currentYear : Nat) (editions : String → Except Unit (List String))
    (descOracle : String → DescFetch) (subject : String) (works : List SubjectWork)
    (l : List WorkEd)
    (h : GetRecommendedBooksEditions currentYear editions descOracle subject works =
      Except.ok l) :
    l.length ≤ 3 ∧
    ∀ b ∈ l, currentYear - 2 ≤ b.mostRecentYear ∧ b.mostRecentYear ≤ currentYear := by
  rw [GetRecommendedBooksEditions] at h
  by_cases he : (works.filterMap (processWork currentYear editions descOracle)).isEmpty
  · rw [if_pos he] at h
    cases h
  · rw [if_neg he] at h
    injection h with h
    subst h
    constructor
    · rw [List.length_take]
      exact min_le_left _ _
    · intro b hb
      have hbm := List.mem_of_mem_take hb
      obtain ⟨w, hw, hpw⟩ := List.mem_filterMap.mp hbm
      obtain ⟨dates, hed, hwin, hy⟩ :=
        processWork_year currentYear editions descOracle w b hpw
      rw [hy]
      exact windowYears_bounds currentYear dates hwin

theorem GetRecommendedBooksEditions_len_window_witness :
    ([{ title := "Older", authors := ["A"], description := none, mostRecentYear := 2023 },
      { title := "Newer", authors := ["B"], description := none,
        mostRecentYear := 2024 }] : List WorkEd).length ≤ 3 ∧
    ∀ b ∈ ([{ title := "Older", authors := ["A"], description := none,
              mostRecentYear := 2023 },
            { title := "Newer", authors := ["B"], description := none,
              mostRecentYear := 2024 }] : List WorkEd),
      2024 - 2 ≤ b.mostRecentYear ∧ b.mostRecentYear ≤ 2024 :=
  GetRecommendedBooksEditions_len_window 2024 c4editions c4desc "history" c4works _ rfl

def c5subjects : List (String × Nat) := [("fantasy", 1)]

def c5editions : String → Except Unit (List String) := fun _ => Except.error ()

def c5desc : String → DescFetch := fun _ => DescFetch.reqError

/-- C5 counterexample: both readers share the subject "fantasy", so
subject selection succeeds, but the subject query yields no qualifying
candidate, `GetRecommendedBooks` returns its empty-result error, and the
handler (part_000 lines 157-161) maps it to 500 Internal Server Error —
not the 404 the claim promises for "no qualifying books found". -/
theorem recommendationsStatus_empty_books_returns_500 :
    FindMostCommonSubject c5subjects c5subjects = Except.ok "fantasy" ∧
    GetRecommendedBooksEditions 2024 c5editions c5desc "fantasy" [] =
      Except.error "No recent books found for subject fantasy" ∧
    recommendationsStatus (Except.ok c5subjects) (Except.ok c5subjects) 2024
      c5editions c5desc (fun _ => []) = 500 ∧
    (500 : Nat) ≠ 404 := by
  exact ⟨rfl, rfl, rfl, by decide⟩

/-- C5 amended: when the two readers share no subject the handler
responds 404 Not Found, as the claim says; but when the selected
subject's qualifying-book set is empty, `GetRecommendedBooks` returns an
error and the handler responds 500 Internal Server Error, not 404. -/
theorem recommendationsStatus_shared_subject_404_books_500
    (u1 u2 : List (String × Nat)) (currentYear : Nat)
    (editions : String → Except Unit (List String)) (descOracle : String → DescFetch)
    (subjectWorks : String → List SubjectWork) :
    ((∃ e, FindMostCommonSubject u1 u2 = Except.error e) →
      recommendationsStatus (Except.ok u1) (Except.ok u2) currentYear editions
        descOracle subjectWorks = 404) ∧
    (∀ s, FindMostCommonSubject u1 u2 = Except.ok s →
      (subjectWorks s).filterMap (processWork currentYear editions descOracle) = [] →
      recommendationsStatus (Except.ok u1) (Except.ok u2) currentYear editions
        descOracle subjectWorks = 500) := by
  constructor
  · rintro ⟨e, he⟩
    simp only [recommendationsStatus, he]
  · intro s hs hempty
    simp only [recommendationsStatus, hs, GetRecommendedBooksEditions, hempty,
      List.isEmpty_nil, if_true]

theorem recommendationsStatus_shared_subject_404_books_500_witness :
    recommendationsStatus (Except.ok [("a", 1)]) (Except.ok [("b", 1)]) 2024
      c5editions c5desc (fun _ => []) = 404 ∧
    recommendationsStatus (Except.ok c5subjects) (Except.ok c5subjects) 2024
      c5editions c5desc (fun _ => []) = 500 := by
  constructor
  · exact (recommendationsStatus_shared_subject_404_books_500 [("a", 1)] [("b", 1)]
      2024 c5editions c5desc (fun _ => [])).1 ⟨_, rfl⟩
  · exact (recommendationsStatus_shared_subject_404_books_500 c5subjects c5subjects
      2024 c5editions c5desc (fun _ => [])).2 "fantasy" rfl rfl
